import Mathlib

/-!
Verification development for the storefront backend in `src/san_rate_env.js`.

The embedding models the request-integrity and checkout-pricing subsystem:

* JSON values are modelled by `JVal` (scalars) and `JObj` (objects as
  insertion-ordered key/value lists, matching the key order that
  `JSON.stringify` serializes).  The spec (§3) restricts the free-form
  `address` object to scalar/string values, so nested objects are not needed.
* JavaScript numbers are modelled as exact rationals (`ℚ`).  `toFixed(2)`
  followed by `parseFloat` is modelled by `round2`, which realizes the
  ECMAScript rounding rule "pick the n with n/100 closest to x, ties to the
  larger n", i.e. `⌊100x + 1/2⌋ / 100`.  IEEE-754 artifacts of `toFixed` on
  binary doubles are outside this model.
* `crypto.createHmac('sha256', SECRET_KEY).update(JSON.stringify(proj)).digest('hex')`
  is modelled by an abstract function `hmac : HashInput → String` applied to
  the canonical projection `hashInput` that the code passes to
  `JSON.stringify`.  `JSON.stringify` is injective on this representation
  (it distinguishes exactly the values `HashInput` distinguishes, including
  object key order), and HMAC-SHA256 is treated as collision-free, so
  theorems that need digest inequality assume `Function.Injective hmac`.
  `hmacModel` below is a concrete injective instance used by witnesses.
* `jsonwebtoken`'s `jwt.verify` is modelled by an abstract parser
  `decodeTok` (compact-JWS parsing; `none` = malformed/unparseable) plus an
  abstract signing MAC over the payload.
-/

/-- A scalar JSON value: `null`, a boolean, a (finite) number, or a string.
JavaScript `NaN`/`Infinity` are not representable in the rational model. -/
inductive JVal where
  | null
  | bool (b : Bool)
  | num (q : ℚ)
  | str (s : String)
deriving DecidableEq

/-- A JSON object as an insertion-ordered association list, the order in
which `JSON.stringify` serializes its keys.  Objects produced by
`JSON.parse` have pairwise-distinct keys. -/
abbrev JObj := List (String × JVal)

/-- Property access `o[k]` on a parsed JSON object: the value at the first
entry with key `k`, or `none` for an absent property (JS `undefined`). -/
def getv : JObj → String → Option JVal
  | [], _ => none
  | (k', v) :: rest, k => if k' = k then some v else getv rest k

/-- Property assignment `o[k] = v` on a JSON object: overwrite the entry if
the key is present, otherwise append it (JS insertion order). -/
def setField (o : JObj) (k : String) (v : JVal) : JObj :=
  if (o.map Prod.fst).contains k then
    o.map (fun kv => if kv.1 = k then (k, v) else kv)
  else o ++ [(k, v)]

/-- Whitespace set of JavaScript `String.prototype.trim` (restricted to the
common code points; exotic Unicode spaces behave identically for the claims). -/
def isJsWhitespace (c : Char) : Bool :=
  c = ' ' || c = '\t' || c = '\n' || c = '\r' || c = '\x0b' || c = '\x0c' || c = '\u00A0'

/-- JavaScript `String.prototype.trim`: strip leading and trailing whitespace. -/
def jsTrim (s : String) : String :=
  String.mk (((s.data.dropWhile isJsWhitespace).reverse.dropWhile isJsWhitespace).reverse)

/-- JavaScript `s.split(' ')` (no limit), used by `authenticateJWT` on the
authorization header. -/
def splitSpaceAux : List Char → List Char → List (List Char)
  | [], acc => [acc.reverse]
  | c :: rest, acc =>
    if c = ' ' then acc.reverse :: splitSpaceAux rest [] else splitSpaceAux rest (c :: acc)

/-- JavaScript `s.split(' ')` on a string. -/
def jsSplitSpace (s : String) : List String :=
  (splitSpaceAux s.data []).map String.mk

/-- An HTTP error response `res.status(status).json(message)` of the backend.
The spec's error taxonomy maps onto these: `InvalidInput` ↦ 400,
`Unauthenticated` ↦ 401, `Forbidden` ↦ 403, `NotFound` ↦ 404,
`IntegrityViolation` ↦ 400 with the tamper message, `Internal` ↦ 500. -/
structure ErrResp where
  status : Nat
  message : String
deriving DecidableEq

/-- An order summary as built by `/api/checkout` and echoed back by clients
to `/api/save-order` (source lines 432-438).  Cart lines are JSON objects;
`orderDate` and `status` are client-visible scalar metadata. -/
structure OrderSummary where
  cart : List JObj
  address : JObj
  pricing : JObj
  orderDate : JVal
  status : JVal
deriving DecidableEq

/-- One entry of the hashed cart projection: `JSON.stringify` keeps a key
only when the accessed property is defined (`undefined` keys are dropped). -/
def optEntry (k : String) : Option JVal → JObj
  | some v => [(k, v)]
  | none => []

/-- The per-line projection `item => ({productCode, productName, price, size})`
taken inside `generateOrderHash` (source lines 268-273), in the literal's
fixed key order. -/
def projLine (line : JObj) : JObj :=
  optEntry "productCode" (getv line "productCode") ++
  (optEntry "productName" (getv line "productName") ++
  (optEntry "price" (getv line "price") ++
  optEntry "size" (getv line "size")))

/-- The canonical object passed to `JSON.stringify` by `generateOrderHash`
(source lines 267-276): the projected cart plus `address` and `pricing`
serialized verbatim, `orderDate` and `status` excluded. -/
structure HashInput where
  cart : List JObj
  address : JObj
  pricing : JObj
deriving DecidableEq

/-- The canonical projection of an order summary that feeds the HMAC. -/
def hashInput (order : OrderSummary) : HashInput :=
  ⟨order.cart.map projLine, order.address, order.pricing⟩

/-- `generateOrderHash` (source lines 264-282): HMAC-SHA256 of the canonical
projection, with `hmac` abstracting `HMAC(SECRET_KEY, JSON.stringify(·))`. -/
def generateOrderHash (hmac : HashInput → String) (order : OrderSummary) : String :=
  hmac (hashInput order)

/-- `verifyOrderHash` (source lines 285-288): recompute and compare. -/
def verifyOrderHash (hmac : HashInput → String) (order : OrderSummary) (hash : String) : Bool :=
  generateOrderHash hmac order == hash

/-- A catalog document of the `product` model (source lines 237-246). The
schema is non-strict, so a stored price may be any JSON scalar (or missing,
represented by `JVal.null`); the checkout coerces non-numbers to 0. -/
structure Product where
  _id : String
  product_code : String
  product_name : String
  product_price : JVal
  product_imageurl : String
deriving DecidableEq

/-- `parseFloat(x.toFixed(2))` on an exact rational: round to 2 decimal
places, ties to the larger value (round-half-up; equal to
round-half-away-from-zero on the non-negative range). -/
def round2 (q : ℚ) : ℚ :=
  ((⌊q * 100 + 1 / 2⌋ : ℤ) : ℚ) / 100

/-- `const discount = parseFloat((subtotal * 0.1).toFixed(2))` (line 427). -/
def discountOf (subtotal : ℚ) : ℚ := round2 (subtotal * (1 / 10))

/-- `const delivery = subtotal > 700 ? 0 : 150` (line 428). -/
def deliveryOf (subtotal : ℚ) : ℚ := if subtotal > 700 then 0 else 150

/-- `const total = parseFloat((subtotal + delivery - discount).toFixed(2))` (line 429). -/
def totalOf (subtotal : ℚ) : ℚ := round2 (subtotal + deliveryOf subtotal - discountOf subtotal)

/-- The `pricing` object literal of the order summary (line 435), in its
fixed key insertion order. -/
def pricingObj (subtotal : ℚ) : JObj :=
  [("subtotal", JVal.num subtotal),
   ("discount", JVal.num (discountOf subtotal)),
   ("delivery", JVal.num (deliveryOf subtotal)),
   ("total", JVal.num (totalOf subtotal))]

/-- `cart.map(item => ...)` extracting trimmed product codes (lines 382-387);
`none` models the thrown `Error('Invalid product code in cart')` when a
`productCode` is not a string with non-empty trim. -/
def extractCodes : List JObj → Option (List String)
  | [] => some []
  | line :: rest =>
    match getv line "productCode" with
    | some (JVal.str s) =>
      if jsTrim s = "" then none
      else (extractCodes rest).map (fun codes => jsTrim s :: codes)
    | _ => none

/-- `Product.find({product_code: {$in: productCodes}})` (lines 390-391):
the catalog documents whose code occurs among the trimmed codes, in
collection order. -/
def matchedProducts (catalog : List Product) (codes : List String) : List Product :=
  catalog.filter (fun p => codes.contains p.product_code)

/-- One step of the `enhancedCart` construction (lines 397-414): find the
catalog record by the raw (untrimmed) submitted code, validate the size,
and build the enriched line in the literal's key order; `none` models the
dropped (`null`-filtered) line. -/
def enrichLine (products : List Product) (line : JObj) : Option JObj :=
  match products.find? (fun p => some (JVal.str p.product_code) == getv line "productCode") with
  | none => none
  | some productData =>
    let size := match getv line "size" with
      | some (JVal.str t) => jsTrim t
      | _ => ""
    if size = "" then none
    else some [("_id", JVal.str productData._id),
               ("productCode", JVal.str productData.product_code),
               ("productName", JVal.str productData.product_name),
               ("price", productData.product_price),
               ("imageUrl", JVal.str productData.product_imageurl),
               ("size", JVal.str size)]

/-- `cart.map(enrich).filter(Boolean)` (lines 397-414). -/
def enhancedCart (products : List Product) (cart : List JObj) : List JObj :=
  cart.filterMap (enrichLine products)

/-- The coercion `typeof price === 'number' && !isNaN(price) ? price : 0`
applied to an accessed `price` property (line 423). -/
def priceCoerce : Option JVal → ℚ
  | some (JVal.num q) => q
  | _ => 0

/-- `enhancedCart.reduce((sum, item) => sum + coerced price, 0)` (lines 422-425). -/
def cartSubtotal (cart : List JObj) : ℚ :=
  cart.foldl (fun sum item => sum + priceCoerce (getv item "price")) 0

/-- The order summary literal of source lines 432-438, built over the
enriched cart of the matched catalog products. -/
def summaryOf (catalog : List Product) (codes : List String) (now : JVal)
    (cart : List JObj) (address : JObj) : OrderSummary :=
  ⟨enhancedCart (matchedProducts catalog codes) cart, address,
   pricingObj (cartSubtotal (enhancedCart (matchedProducts catalog codes) cart)),
   now, JVal.str "pending"⟩

/-- The `/api/checkout` handler (source lines 368-452) for a request whose
body has an array `cart` of JSON objects and an object `address` (other
body shapes are rejected by the 400 guards before any logic runs).  The
`now` argument stands for `new Date()`.  A thrown invalid-product-code
error surfaces through the generic catch as the 500 response of line 450. -/
def checkout (hmac : HashInput → String) (catalog : List Product) (now : JVal)
    (cart : List JObj) (address : JObj) : Except ErrResp (OrderSummary × String) :=
  if cart.isEmpty then
    .error ⟨400, "Invalid request. Cart items are required."⟩
  else
    match extractCodes cart with
    | none => .error ⟨500, "Server error processing order"⟩
    | some codes =>
      if (matchedProducts catalog codes).isEmpty then
        .error ⟨404, "No products found in database"⟩
      else if (enhancedCart (matchedProducts catalog codes) cart).isEmpty then
        .error ⟨400, "No valid items in cart"⟩
      else
        .ok (summaryOf catalog codes now cart address,
             generateOrderHash hmac (summaryOf catalog codes now cart address))

/-- The `/api/save-order` handler (source lines 455-500), in state-passing
form over the order store: the result plus the store after the call.  The
persistent identifier assigned by the single insert is modelled by the
store position.  A non-string or empty (falsy) `orderHash` hits the 400
guard of lines 459-464; the required-field guard of lines 467-472 is
always satisfied by the `OrderSummary` representation. -/
def saveOrder (hmac : HashInput → String) (store : List OrderSummary)
    (order : OrderSummary) (orderHash : JVal) :
    Except ErrResp Nat × List OrderSummary :=
  match orderHash with
  | JVal.str h =>
    if h = "" then
      (.error ⟨400, "Invalid order data or missing hash"⟩, store)
    else if verifyOrderHash hmac order h then
      (.ok store.length, store ++ [order])
    else
      (.error ⟨400, "Order verification failed. The order data may have been tampered with."⟩, store)
  | _ => (.error ⟨400, "Invalid order data or missing hash"⟩, store)

/-- The payload of a session token: `{ clientId }` plus the expiry claim
that `jwt.sign(..., { expiresIn: JWT_EXPIRY })` stamps (seconds). -/
structure JwtPayload where
  clientId : String
  exp : Nat
deriving DecidableEq

/-- The `authenticateJWT` middleware (source lines 142-162).  `mac` models
the token-signing MAC with the server's `JWT_SECRET`; `decodeTok` models
compact-JWS parsing of the token string into payload and attached
signature (`none` = malformed/unparseable, making `jwt.verify` throw);
`now` is the verification clock in seconds (`jsonwebtoken` treats a token
as expired when `now ≥ exp`).  On success the embedded `clientId` is
exposed (`req.clientId = decoded.clientId`). -/
def authenticateJWT (mac : String → JwtPayload → String)
    (decodeTok : String → Option (JwtPayload × String)) (secret : String) (now : Nat)
    (authHeader : Option String) : Except ErrResp String :=
  match authHeader with
  | none => .error ⟨401, "Authorization header missing"⟩
  | some h =>
    if h = "" then .error ⟨401, "Authorization header missing"⟩
    else
      match (jsSplitSpace h).get? 1 with
      | none => .error ⟨401, "Token not provided"⟩
      | some tok =>
        if tok = "" then .error ⟨401, "Token not provided"⟩
        else
          match decodeTok tok with
          | none => .error ⟨403, "Invalid or expired token"⟩
          | some (payload, sig) =>
            if sig = mac secret payload then
              if now < payload.exp then .ok payload.clientId
              else .error ⟨403, "Invalid or expired token"⟩
            else .error ⟨403, "Invalid or expired token"⟩

/-- Replace the element at an index of a cart, leaving other lines alone
(models a client editing one cart line before echoing the order back). -/
def modifyAt (f : JObj → JObj) : Nat → List JObj → List JObj
  | _, [] => []
  | 0, line :: rest => f line :: rest
  | n + 1, line :: rest => line :: modifyAt f n rest

/-- A field inside the hashed projection that a client may tamper with:
a cart line's `price`, `productCode` or `size`, an address field, or a
pricing field. -/
inductive TamperField where
  | linePrice (i : Nat)
  | lineCode (i : Nat)
  | lineSize (i : Nat)
  | addressField (k : String)
  | pricingField (k : String)
deriving DecidableEq

/-- The value currently stored at a hashed field of an order summary. -/
def currentVal (S : OrderSummary) : TamperField → Option JVal
  | .linePrice i => (S.cart.get? i).bind (fun line => getv line "price")
  | .lineCode i => (S.cart.get? i).bind (fun line => getv line "productCode")
  | .lineSize i => (S.cart.get? i).bind (fun line => getv line "size")
  | .addressField k => getv S.address k
  | .pricingField k => getv S.pricing k

/-- Overwrite one hashed field of an order summary with a new value. -/
def tamper (S : OrderSummary) : TamperField → JVal → OrderSummary
  | .linePrice i, v => { S with cart := modifyAt (fun line => setField line "price" v) i S.cart }
  | .lineCode i, v => { S with cart := modifyAt (fun line => setField line "productCode" v) i S.cart }
  | .lineSize i, v => { S with cart := modifyAt (fun line => setField line "size" v) i S.cart }
  | .addressField k, v => { S with address := setField S.address k v }
  | .pricingField k, v => { S with pricing := setField S.pricing k v }

/-- A client-side edit touching only fields outside the hashed projection:
`orderDate`, `status`, and one cart line's `imageUrl` and `_id`. -/
def excludedEdit (S : OrderSummary) (newDate newStatus : JVal) (i : Nat)
    (newImage newId : JVal) : OrderSummary :=
  { S with
    cart := modifyAt (fun line => setField (setField line "imageUrl" newImage) "_id" newId) i S.cart,
    orderDate := newDate,
    status := newStatus }

/-- Is a cart line's `productCode` a string with non-empty trim (the
validation of source lines 383-384)? -/
def validCode (line : JObj) : Bool :=
  match getv line "productCode" with
  | some (JVal.str s) => !(jsTrim s == "")
  | _ => false

/-! ### A concrete injective model of the keyed digest

`hmacModel` is an injective `HashInput → String` used by witnesses to
instantiate the `Function.Injective hmac` hypotheses.  It is built from an
explicit pairing-based encoder; it is never evaluated, only its
injectivity is used. -/

/-- Injectively encode a list of naturals. -/
def encListN : List Nat → Nat
  | [] => 0
  | n :: rest => Nat.pair n (encListN rest) + 1

/-- Injectively encode a string. -/
def encString (s : String) : Nat :=
  encListN (s.data.map Char.toNat)

/-- Injectively encode an integer. -/
def encInt (z : Int) : Nat :=
  Nat.pair z.toNat (-z).toNat

/-- Injectively encode a rational. -/
def encRat (q : ℚ) : Nat :=
  Nat.pair (encInt q.num) q.den

/-- Injectively encode a scalar JSON value. -/
def encJVal : JVal → Nat
  | .null => Nat.pair 0 0
  | .bool b => Nat.pair 1 (cond b 1 0)
  | .num q => Nat.pair 2 (encRat q)
  | .str s => Nat.pair 3 (encString s)

/-- Injectively encode a JSON object. -/
def encObj (o : JObj) : Nat :=
  encListN (o.map (fun kv => Nat.pair (encString kv.1) (encJVal kv.2)))

/-- Injectively encode a hash input. -/
def encHashInput (h : HashInput) : Nat :=
  Nat.pair (encListN (h.cart.map encObj)) (Nat.pair (encObj h.address) (encObj h.pricing))

/-- A concrete injective stand-in for `HMAC(SECRET_KEY, JSON.stringify(·))`. -/
def hmacModel (h : HashInput) : String :=
  String.mk (List.replicate (encHashInput h) 'a')

/-! ### Concrete example data shared by witnesses and counterexamples -/

/-- A constant digest function: enough for claims that only need the
digest to be a deterministic function of the hash input. -/
def hmacConst : HashInput → String := fun _ => "h"

/-- Example catalog: one product with code `A1` priced 500. -/
def catalogEx : List Product :=
  [⟨"id1", "A1", "Shirt", JVal.num 500, "http-img-a1"⟩]

/-- Example catalog for the rounding counterexample: a price with more than
two decimal places (0.005). -/
def catalogFrac : List Product :=
  [⟨"id9", "B9", "Sticker", JVal.num (1 / 200), "http-img-b9"⟩]

/-- Example submitted cart: one line for `A1`, size `M`. -/
def cartEx : List JObj :=
  [[("productCode", JVal.str "A1"), ("size", JVal.str "M")]]

/-- Example cart with one valid and one unknown product code. -/
def cartMixed : List JObj :=
  [[("productCode", JVal.str "A1"), ("size", JVal.str "M")],
   [("productCode", JVal.str "ZZ"), ("size", JVal.str "L")]]

/-- Example cart whose only line has an unknown product code. -/
def cartUnknown : List JObj :=
  [[("productCode", JVal.str "ZZ"), ("size", JVal.str "L")]]

/-- Example cart whose only line has a non-string product code. -/
def cartBadCode : List JObj :=
  [[("productCode", JVal.num 42), ("size", JVal.str "M")]]

/-- Example cart with a valid code but a missing size (the line is dropped). -/
def cartNoSize : List JObj :=
  [[("productCode", JVal.str "A1")]]

/-- Example cart holding the fractional-price product. -/
def cartFrac : List JObj :=
  [[("productCode", JVal.str "B9"), ("size", JVal.str "M")]]

/-- Example address. -/
def addrEx : JObj :=
  [("city", JVal.str "Goa"), ("zip", JVal.str "403001")]

/-- The example address with its keys in the opposite insertion order:
semantically the same mapping, serialized differently. -/
def addrExSwapped : JObj :=
  [("zip", JVal.str "403001"), ("city", JVal.str "Goa")]

/-- Example order date scalar. -/
def nowEx : JVal := JVal.str "2026-10-11T00:00:00.000Z"

/-- The enriched cart line that checkout builds for `cartEx` over `catalogEx`. -/
def enhEx : JObj :=
  [("_id", JVal.str "id1"), ("productCode", JVal.str "A1"), ("productName", JVal.str "Shirt"),
   ("price", JVal.num 500), ("imageUrl", JVal.str "http-img-a1"), ("size", JVal.str "M")]

/-- The order summary returned by checkout on the example inputs. -/
def orderEx : OrderSummary :=
  ⟨[enhEx], addrEx, pricingObj (cartSubtotal [enhEx]), nowEx, JVal.str "pending"⟩

/-- The example enriched cart line with its keys in a different insertion
order: property access (hence the hashed projection) cannot see the
difference. -/
def enhExShuffled : JObj :=
  [("size", JVal.str "M"), ("price", JVal.num 500), ("productName", JVal.str "Shirt"),
   ("productCode", JVal.str "A1"), ("imageUrl", JVal.str "http-img-a1"), ("_id", JVal.str "id1")]

/-- The enriched cart line that checkout builds for `cartFrac` over `catalogFrac`. -/
def enhFrac : JObj :=
  [("_id", JVal.str "id9"), ("productCode", JVal.str "B9"), ("productName", JVal.str "Sticker"),
   ("price", JVal.num (1 / 200)), ("imageUrl", JVal.str "http-img-b9"), ("size", JVal.str "M")]

/-- The order summary returned by checkout on the fractional-price inputs. -/
def orderFrac : OrderSummary :=
  ⟨[enhFrac], addrEx, pricingObj (cartSubtotal [enhFrac]), nowEx, JVal.str "pending"⟩

/-- The example order summary with the address keys reordered. -/
def orderExSwapped : OrderSummary :=
  ⟨[enhEx], addrExSwapped, pricingObj (cartSubtotal [enhEx]), nowEx, JVal.str "pending"⟩

/-- An example decoder for token strings: `good` parses to a payload signed
with signature `sig0`; everything else is unparseable. -/
def decodeTokEx : String → Option (JwtPayload × String) :=
  fun t => if t = "good" then some (⟨"client-1", 100⟩, "sig0") else none

/-- An example signing MAC whose signature for the example payload under the
server secret is `sig0`. -/
def macEx : String → JwtPayload → String :=
  fun secret p => if secret = "server-secret" && p.clientId = "client-1" then "sig0" else "other"


/-! ### Lemmas about JSON object access, update and the hashed projection -/

theorem getv_append_none {xs : JObj} {k : String} (ys : JObj) (h : getv xs k = none) :
    getv (xs ++ ys) k = getv ys k := by
  induction xs with
  | nil => rfl
  | cons kv rest ih =>
    obtain ⟨k', v⟩ := kv
    by_cases hk : k' = k
    · simp [getv, hk] at h
    · simpa [getv, hk] using ih (by simpa [getv, hk] using h)

theorem getv_append_some {xs : JObj} {k : String} {v : JVal} (ys : JObj)
    (h : getv xs k = some v) : getv (xs ++ ys) k = some v := by
  induction xs with
  | nil => simp [getv] at h
  | cons kv rest ih =>
    obtain ⟨k', w⟩ := kv
    by_cases hk : k' = k
    · simpa [getv, hk] using by simpa [getv, hk] using h
    · simpa [getv, hk] using ih (by simpa [getv, hk] using h)

theorem getv_some_contains {o : JObj} {k : String} {v : JVal} (h : getv o k = some v) :
    (o.map Prod.fst).contains k = true := by
  induction o with
  | nil => simp [getv] at h
  | cons kv rest ih =>
    obtain ⟨k', w⟩ := kv
    by_cases hk : k' = k
    · simp [hk]
    · simp [getv, hk] at h
      simpa [hk] using Or.inr (ih h)

theorem getv_overwrite_self {o : JObj} {k : String} {w : JVal} (v : JVal)
    (h : getv o k = some w) :
    getv (o.map (fun kv => if kv.1 = k then (k, v) else kv)) k = some v := by
  induction o with
  | nil => simp [getv] at h
  | cons kv rest ih =>
    obtain ⟨k', w'⟩ := kv
    rw [List.map_cons]
    by_cases hk : k' = k
    · have hfn : (if ((k', w') : String × JVal).1 = k then (k, v) else (k', w')) = (k, v) := by
        simp [hk]
      rw [hfn]
      simp [getv]
    · have hfn : (if ((k', w') : String × JVal).1 = k then (k, v) else (k', w')) = (k', w') := by
        simp [hk]
      rw [hfn]
      have h' : getv rest k = some w := by simpa [getv, hk] using h
      simpa [getv, hk] using ih h'

theorem getv_overwrite_ne {o : JObj} {k k' : String} (v : JVal) (hne : k' ≠ k) :
    getv (o.map (fun kv => if kv.1 = k then (k, v) else kv)) k' = getv o k' := by
  induction o with
  | nil => rfl
  | cons kv rest ih =>
    obtain ⟨k₁, w⟩ := kv
    rw [List.map_cons]
    by_cases hk : k₁ = k
    · subst hk
      have hfn : (if ((k₁, w) : String × JVal).1 = k₁ then (k₁, v) else (k₁, w)) = (k₁, v) := by
        simp
      rw [hfn]
      have hne' : ¬ (k₁ = k') := fun e => hne e.symm
      simp only [getv, if_neg hne']
      exact ih
    · have hfn : (if ((k₁, w) : String × JVal).1 = k then (k, v) else (k₁, w)) = (k₁, w) := by
        simp [hk]
      rw [hfn]
      simp only [getv]
      rw [ih]

theorem getv_setField_self {o : JObj} {k : String} {w : JVal} (v : JVal)
    (h : getv o k = some w) : getv (setField o k v) k = some v := by
  unfold setField
  rw [if_pos (getv_some_contains h)]
  exact getv_overwrite_self v h

theorem getv_setField_ne {o : JObj} {k k' : String} (v : JVal) (hne : k' ≠ k) :
    getv (setField o k v) k' = getv o k' := by
  unfold setField
  by_cases hc : (o.map Prod.fst).contains k = true
  · rw [if_pos hc]
    exact getv_overwrite_ne v hne
  · rw [if_neg hc]
    cases hg : getv o k' with
    | none => rw [getv_append_none _ hg]; simp [getv, Ne.symm hne]
    | some u => exact getv_append_some _ hg

theorem getv_optEntry_self (k : String) (o : Option JVal) : getv (optEntry k o) k = o := by
  cases o <;> simp [optEntry, getv]

theorem getv_optEntry_ne {k k' : String} (o : Option JVal) (h : k ≠ k') :
    getv (optEntry k o) k' = none := by
  cases o <;> simp [optEntry, getv, h]

theorem getv_projLine_code (l : JObj) : getv (projLine l) "productCode" = getv l "productCode" := by
  unfold projLine
  cases h : getv l "productCode" with
  | some v =>
    exact getv_append_some _ (by rw [getv_optEntry_self])
  | none =>
    rw [getv_append_none _ (by rw [getv_optEntry_self]),
      getv_append_none _ (getv_optEntry_ne _ (by decide)),
      getv_append_none _ (getv_optEntry_ne _ (by decide)),
      getv_optEntry_ne _ (by decide)]

theorem getv_projLine_name (l : JObj) : getv (projLine l) "productName" = getv l "productName" := by
  unfold projLine
  rw [getv_append_none _ (getv_optEntry_ne _ (by decide))]
  cases h : getv l "productName" with
  | some v =>
    exact getv_append_some _ (by rw [getv_optEntry_self])
  | none =>
    rw [getv_append_none _ (by rw [getv_optEntry_self]),
      getv_append_none _ (getv_optEntry_ne _ (by decide)),
      getv_optEntry_ne _ (by decide)]

theorem getv_projLine_price (l : JObj) : getv (projLine l) "price" = getv l "price" := by
  unfold projLine
  rw [getv_append_none _ (getv_optEntry_ne _ (by decide)),
    getv_append_none _ (getv_optEntry_ne _ (by decide))]
  cases h : getv l "price" with
  | some v =>
    exact getv_append_some _ (by rw [getv_optEntry_self])
  | none =>
    rw [getv_append_none _ (by rw [getv_optEntry_self]),
      getv_optEntry_ne _ (by decide)]

theorem getv_projLine_size (l : JObj) : getv (projLine l) "size" = getv l "size" := by
  unfold projLine
  rw [getv_append_none _ (getv_optEntry_ne _ (by decide)),
    getv_append_none _ (getv_optEntry_ne _ (by decide)),
    getv_append_none _ (getv_optEntry_ne _ (by decide))]
  exact getv_optEntry_self _ _

theorem projLine_congr {l l' : JObj}
    (h1 : getv l' "productCode" = getv l "productCode")
    (h2 : getv l' "productName" = getv l "productName")
    (h3 : getv l' "price" = getv l "price")
    (h4 : getv l' "size" = getv l "size") : projLine l' = projLine l := by
  unfold projLine
  rw [h1, h2, h3, h4]

/-! ### Injectivity of the concrete digest model -/

theorem encListN_injective : Function.Injective encListN := by
  intro l₁ l₂ h
  induction l₁ generalizing l₂ with
  | nil =>
    cases l₂ with
    | nil => rfl
    | cons b t => simp [encListN] at h
  | cons a t ih =>
    cases l₂ with
    | nil => simp [encListN] at h
    | cons b t' =>
      simp only [encListN, Nat.add_right_cancel_iff] at h
      obtain ⟨h1, h2⟩ := Nat.pair_eq_pair.mp h
      rw [h1, ih h2]

theorem encListN_map_injective {α : Type} (f : α → Nat)
    (hf : ∀ a b : α, f a = f b → a = b) {l₁ l₂ : List α}
    (h : encListN (l₁.map f) = encListN (l₂.map f)) : l₁ = l₂ := by
  have hmap := encListN_injective h
  induction l₁ generalizing l₂ with
  | nil => cases l₂ with
    | nil => rfl
    | cons b t => simp at hmap
  | cons a t ih =>
    cases l₂ with
    | nil => simp at hmap
    | cons b t' =>
      simp only [List.map_cons, List.cons.injEq] at hmap
      rw [hf a b hmap.1, ih (by rw [hmap.2]) hmap.2]

theorem charToNat_injective (a b : Char) (h : a.toNat = b.toNat) : a = b := by
  apply Char.eq_of_val_eq
  apply UInt32.eq_of_val_eq
  exact Fin.ext h

theorem encString_injective (s₁ s₂ : String) (h : encString s₁ = encString s₂) : s₁ = s₂ := by
  unfold encString at h
  have hd : s₁.data = s₂.data := encListN_map_injective Char.toNat charToNat_injective h
  cases s₁
  cases s₂
  exact congrArg String.mk hd

theorem encInt_injective (a b : Int) (h : encInt a = encInt b) : a = b := by
  unfold encInt at h
  obtain ⟨h1, h2⟩ := Nat.pair_eq_pair.mp h
  omega

theorem encRat_injective (a b : ℚ) (h : encRat a = encRat b) : a = b := by
  unfold encRat at h
  obtain ⟨h1, h2⟩ := Nat.pair_eq_pair.mp h
  exact Rat.ext (encInt_injective _ _ h1) h2

theorem encJVal_injective (a b : JVal) (h : encJVal a = encJVal b) : a = b := by
  cases a <;> cases b <;> simp only [encJVal] at h <;>
    first
    | rfl
    | (exact absurd (Nat.pair_eq_pair.mp h).1 (by decide))
    | skip
  · obtain ⟨-, h2⟩ := Nat.pair_eq_pair.mp h
    rename_i b₁ b₂
    cases b₁ <;> cases b₂ <;> simp_all
  · obtain ⟨-, h2⟩ := Nat.pair_eq_pair.mp h
    rw [encRat_injective _ _ h2]
  · obtain ⟨-, h2⟩ := Nat.pair_eq_pair.mp h
    rw [encString_injective _ _ h2]

theorem encObj_injective (a b : JObj) (h : encObj a = encObj b) : a = b := by
  unfold encObj at h
  refine encListN_map_injective _ ?_ h
  intro x y hxy
  obtain ⟨h1, h2⟩ := Nat.pair_eq_pair.mp hxy
  obtain ⟨xk, xv⟩ := x
  obtain ⟨yk, yv⟩ := y
  rw [Prod.mk.injEq]
  exact ⟨encString_injective _ _ h1, encJVal_injective _ _ h2⟩

theorem encHashInput_injective (a b : HashInput) (h : encHashInput a = encHashInput b) :
    a = b := by
  unfold encHashInput at h
  obtain ⟨h1, h23⟩ := Nat.pair_eq_pair.mp h
  obtain ⟨h2, h3⟩ := Nat.pair_eq_pair.mp h23
  obtain ⟨ac, aa, ap⟩ := a
  obtain ⟨bc, ba, bp⟩ := b
  simp only [HashInput.mk.injEq]
  exact ⟨encListN_map_injective _ encObj_injective h1,
    encObj_injective _ _ h2, encObj_injective _ _ h3⟩

theorem hmacModel_injective : Function.Injective hmacModel := by
  intro a b h
  unfold hmacModel at h
  have hlen := congrArg (fun s => s.data.length) h
  simp only [List.length_replicate] at hlen
  exact encHashInput_injective _ _ hlen

/-! ### Rounding lemmas -/

theorem round2_le (q : ℚ) : round2 q ≤ q + 1 / 200 := by
  unfold round2
  have h1 : ((⌊q * 100 + 1 / 2⌋ : ℤ) : ℚ) ≤ q * 100 + 1 / 2 := Int.floor_le _
  linarith

theorem round2_gt (q : ℚ) : q - 1 / 200 < round2 q := by
  unfold round2
  have h1 : q * 100 + 1 / 2 - 1 < ((⌊q * 100 + 1 / 2⌋ : ℤ) : ℚ) := Int.sub_one_lt_floor _
  linarith

theorem round2_nonneg {q : ℚ} (h : 0 ≤ q) : 0 ≤ round2 q := by
  unfold round2
  have h1 : (0 : ℤ) ≤ ⌊q * 100 + 1 / 2⌋ := Int.le_floor.mpr (by push_cast; linarith)
  have h2 : (0 : ℚ) ≤ ((⌊q * 100 + 1 / 2⌋ : ℤ) : ℚ) := by exact_mod_cast h1
  linarith

theorem round2_idem (q : ℚ) : round2 (round2 q) = round2 q := by
  unfold round2
  have h100 : (100 : ℚ) ≠ 0 := by norm_num
  rw [div_mul_cancel₀ _ h100]
  rw [Int.floor_int_add]
  have hhalf : ⌊(1 / 2 : ℚ)⌋ = 0 := by
    rw [Int.floor_eq_zero_iff]
    constructor <;> norm_num
  rw [hhalf, add_zero]

/-! ### Lemmas about in-place cart edits -/

theorem modifyAt_get_self (f : JObj → JObj) (i : Nat) (l : List JObj) :
    (modifyAt f i l).get? i = (l.get? i).map f := by
  induction l generalizing i with
  | nil => cases i <;> rfl
  | cons a t ih =>
    cases i with
    | zero => rfl
    | succ n => simpa [modifyAt] using ih n

theorem map_projLine_modifyAt {f : JObj → JObj}
    (hf : ∀ l, projLine (f l) = projLine l) (i : Nat) (cart : List JObj) :
    (modifyAt f i cart).map projLine = cart.map projLine := by
  induction cart generalizing i with
  | nil => cases i <;> rfl
  | cons a t ih =>
    cases i with
    | zero => simp [modifyAt, hf]
    | succ n => simpa [modifyAt] using ih n

/-! ### Checkout inversion and branch lemmas -/

theorem checkout_ok_inv {hmac : HashInput → String} {catalog : List Product} {now : JVal}
    {cart : List JObj} {address : JObj} {S : OrderSummary} {dg : String}
    (h : checkout hmac catalog now cart address = .ok (S, dg)) :
    ∃ codes, extractCodes cart = some codes ∧
      matchedProducts catalog codes ≠ [] ∧
      S = summaryOf catalog codes now cart address ∧
      S.cart ≠ [] ∧
      dg = generateOrderHash hmac S := by
  unfold checkout at h
  split at h
  · simp at h
  · cases hc : extractCodes cart with
    | none => rw [hc] at h; simp at h
    | some codes =>
      rw [hc] at h
      simp only at h
      split at h
      · simp at h
      · split at h
        · simp at h
        next hprod henh =>
          simp only [Except.ok.injEq, Prod.mk.injEq] at h
          obtain ⟨hS, hdg⟩ := h
          subst hS
          subst hdg
          refine ⟨codes, rfl, ?_, rfl, ?_, rfl⟩
          · simpa [List.isEmpty_iff] using hprod
          · simpa [summaryOf, List.isEmpty_iff] using henh

theorem checkout_invalid_code {hmac : HashInput → String} {catalog : List Product} {now : JVal}
    {cart : List JObj} {address : JObj} (hne : cart ≠ [])
    (hbad : extractCodes cart = none) :
    checkout hmac catalog now cart address = .error ⟨500, "Server error processing order"⟩ := by
  obtain ⟨c, cs, rfl⟩ := List.exists_cons_of_ne_nil hne
  simp [checkout, hbad]

theorem checkout_no_products {hmac : HashInput → String} {catalog : List Product} {now : JVal}
    {cart : List JObj} {address : JObj} {codes : List String} (hne : cart ≠ [])
    (hc : extractCodes cart = some codes) (hp : matchedProducts catalog codes = []) :
    checkout hmac catalog now cart address = .error ⟨404, "No products found in database"⟩ := by
  obtain ⟨c, cs, rfl⟩ := List.exists_cons_of_ne_nil hne
  simp [checkout, hc, hp]

theorem checkout_no_valid_items {hmac : HashInput → String} {catalog : List Product} {now : JVal}
    {cart : List JObj} {address : JObj} {codes : List String} (hne : cart ≠ [])
    (hc : extractCodes cart = some codes) (hp : matchedProducts catalog codes ≠ [])
    (he : enhancedCart (matchedProducts catalog codes) cart = []) :
    checkout hmac catalog now cart address = .error ⟨400, "No valid items in cart"⟩ := by
  obtain ⟨c, cs, rfl⟩ := List.exists_cons_of_ne_nil hne
  simp [checkout, hc, List.isEmpty_iff, hp, he]

theorem checkout_success {hmac : HashInput → String} {catalog : List Product} {now : JVal}
    {cart : List JObj} {address : JObj} {codes : List String} (hne : cart ≠ [])
    (hc : extractCodes cart = some codes) (hp : matchedProducts catalog codes ≠ [])
    (he : enhancedCart (matchedProducts catalog codes) cart ≠ []) :
    checkout hmac catalog now cart address =
      .ok (summaryOf catalog codes now cart address,
           generateOrderHash hmac (summaryOf catalog codes now cart address)) := by
  obtain ⟨c, cs, rfl⟩ := List.exists_cons_of_ne_nil hne
  simp [checkout, hc, List.isEmpty_iff, hp, he]

theorem extractCodes_none_iff (cart : List JObj) :
    extractCodes cart = none ↔ ∃ line ∈ cart, validCode line = false := by
  induction cart with
  | nil => simp [extractCodes]
  | cons line rest ih =>
    constructor
    · intro h
      cases hg : getv line "productCode" with
      | none =>
        exact ⟨line, List.mem_cons_self _ _, by simp [validCode, hg]⟩
      | some v =>
        cases v with
        | str s =>
          simp only [extractCodes, hg] at h
          by_cases hs : jsTrim s = ""
          · exact ⟨line, List.mem_cons_self _ _, by simp [validCode, hg, hs]⟩
          · rw [if_neg hs] at h
            have hrest : extractCodes rest = none := by
              cases hr : extractCodes rest with
              | none => rfl
              | some codes => rw [hr] at h; simp at h
            obtain ⟨l, hl, hv⟩ := ih.mp hrest
            exact ⟨l, List.mem_cons_of_mem _ hl, hv⟩
        | null => exact ⟨line, List.mem_cons_self _ _, by simp [validCode, hg]⟩
        | bool b => exact ⟨line, List.mem_cons_self _ _, by simp [validCode, hg]⟩
        | num q => exact ⟨line, List.mem_cons_self _ _, by simp [validCode, hg]⟩
    · rintro ⟨l, hl, hv⟩
      rcases List.mem_cons.mp hl with rfl | hl'
      · unfold validCode at hv
        cases hg : getv l "productCode" with
        | none => simp [extractCodes, hg]
        | some v =>
          cases v with
          | str s =>
            rw [hg] at hv
            simp only [Bool.not_eq_false', beq_iff_eq] at hv
            simp [extractCodes, hg, hv]
          | null => simp [extractCodes, hg]
          | bool b => simp [extractCodes, hg]
          | num q => simp [extractCodes, hg]
      · cases hg : getv line "productCode" with
        | none => simp [extractCodes, hg]
        | some v =>
          cases v with
          | str s =>
            by_cases hs : jsTrim s = ""
            · simp [extractCodes, hg, hs]
            · simp [extractCodes, hg, hs, ih.mpr ⟨l, hl', hv⟩]
          | null => simp [extractCodes, hg]
          | bool b => simp [extractCodes, hg]
          | num q => simp [extractCodes, hg]

/-! ### Tampering changes the canonical projection -/

theorem verify_false_of_hashInput_ne {hmac : HashInput → String}
    (hinj : Function.Injective hmac) {S S' : OrderSummary}
    (h : hashInput S' ≠ hashInput S) :
    verifyOrderHash hmac S' (generateOrderHash hmac S) = false := by
  unfold verifyOrderHash generateOrderHash
  rw [beq_eq_false_iff_ne]
  exact fun he => h (hinj he)

theorem projLine_setField_ne {key : String}
    (hproj : ∀ l, getv (projLine l) key = getv l key)
    {line : JObj} {w v : JVal} (hg : getv line key = some w) (hne : w ≠ v) :
    projLine (setField line key v) ≠ projLine line := by
  intro he
  have h2 : getv line key = getv (setField line key v) key := by
    rw [← hproj line, ← he, hproj]
  rw [hg, getv_setField_self v hg] at h2
  exact hne (Option.some.inj h2)

theorem lineTamper_map_ne {key : String}
    (hproj : ∀ l, getv (projLine l) key = getv l key)
    {cart : List JObj} {i : Nat} {line : JObj} {w v : JVal}
    (hgi : cart.get? i = some line) (hg : getv line key = some w) (hne : w ≠ v) :
    (modifyAt (fun l => setField l key v) i cart).map projLine ≠ cart.map projLine := by
  intro he
  have h2 := congrArg (fun l => l.get? i) he
  simp only [List.get?_map, modifyAt_get_self, hgi, Option.map_some'] at h2
  exact projLine_setField_ne hproj hg hne (Option.some.inj h2)

theorem hashInput_tamper_ne {S : OrderSummary} {f : TamperField} {v : JVal}
    (hpresent : currentVal S f ≠ none) (hchange : currentVal S f ≠ some v) :
    hashInput (tamper S f v) ≠ hashInput S := by
  cases f with
  | addressField k =>
    cases hg : getv S.address k with
    | none => exact absurd hg hpresent
    | some w =>
      intro heq
      have h2 : setField S.address k v = S.address :=
        congrArg HashInput.address heq
      have h3 := getv_setField_self v hg
      rw [h2] at h3
      exact hchange h3
  | pricingField k =>
    cases hg : getv S.pricing k with
    | none => exact absurd hg hpresent
    | some w =>
      intro heq
      have h2 : setField S.pricing k v = S.pricing :=
        congrArg HashInput.pricing heq
      have h3 := getv_setField_self v hg
      rw [h2] at h3
      exact hchange h3
  | linePrice i =>
    cases hgi : S.cart.get? i with
    | none => exact absurd (by simp only [currentVal]; rw [hgi]; rfl) hpresent
    | some line =>
      cases hg : getv line "price" with
      | none => exact absurd (by simp only [currentVal]; rw [hgi]; exact hg) hpresent
      | some w =>
        have hne : w ≠ v := fun e => hchange (by
          simp only [currentVal]
          rw [hgi]
          show getv line "price" = some v
          rw [hg, e])
        intro heq
        exact lineTamper_map_ne getv_projLine_price hgi hg hne
          (congrArg HashInput.cart heq)
  | lineCode i =>
    cases hgi : S.cart.get? i with
    | none => exact absurd (by simp only [currentVal]; rw [hgi]; rfl) hpresent
    | some line =>
      cases hg : getv line "productCode" with
      | none => exact absurd (by simp only [currentVal]; rw [hgi]; exact hg) hpresent
      | some w =>
        have hne : w ≠ v := fun e => hchange (by
          simp only [currentVal]
          rw [hgi]
          show getv line "productCode" = some v
          rw [hg, e])
        intro heq
        exact lineTamper_map_ne getv_projLine_code hgi hg hne
          (congrArg HashInput.cart heq)
  | lineSize i =>
    cases hgi : S.cart.get? i with
    | none => exact absurd (by simp only [currentVal]; rw [hgi]; rfl) hpresent
    | some line =>
      cases hg : getv line "size" with
      | none => exact absurd (by simp only [currentVal]; rw [hgi]; exact hg) hpresent
      | some w =>
        have hne : w ≠ v := fun e => hchange (by
          simp only [currentVal]
          rw [hgi]
          show getv line "size" = some v
          rw [hg, e])
        intro heq
        exact lineTamper_map_ne getv_projLine_size hgi hg hne
          (congrArg HashInput.cart heq)

/-! ### Subtotal lemmas -/

theorem enhancedCart_price_mem {products : List Product} {cart : List JObj} {line : JObj}
    (h : line ∈ enhancedCart products cart) :
    ∃ p ∈ products, getv line "price" = some p.product_price := by
  unfold enhancedCart at h
  rw [List.mem_filterMap] at h
  obtain ⟨l, _, he⟩ := h
  unfold enrichLine at he
  cases hfind : products.find? (fun p => some (JVal.str p.product_code) == getv l "productCode") with
  | none => rw [hfind] at he; simp at he
  | some p =>
    rw [hfind] at he
    simp only at he
    split at he
    · simp at he
    · refine ⟨p, List.mem_of_find?_eq_some hfind, ?_⟩
      rw [← Option.some.inj he]
      rfl

theorem foldl_price_nonneg (cart : List JObj)
    (h : ∀ line ∈ cart, 0 ≤ priceCoerce (getv line "price")) :
    ∀ init : ℚ, 0 ≤ init →
      0 ≤ cart.foldl (fun sum item => sum + priceCoerce (getv item "price")) init := by
  induction cart with
  | nil => intro init hinit; simpa using hinit
  | cons a t ih =>
    intro init hinit
    simp only [List.foldl_cons]
    refine ih (fun l hl => h l (List.mem_cons_of_mem _ hl)) _ ?_
    have := h a (List.mem_cons_self _ _)
    linarith

theorem cartSubtotal_nonneg {cart : List JObj}
    (h : ∀ line ∈ cart, 0 ≤ priceCoerce (getv line "price")) : 0 ≤ cartSubtotal cart :=
  foldl_price_nonneg cart h 0 le_rfl

/-! ### Claim theorems -/

/-- Claim C1: the claim states that the integrity digest is independent of
object key ordering inside the address, pricing and cart-line objects.  The
code refutes this: `generateOrderHash` rebuilds cart lines by property access
(so cart-line key order is indeed irrelevant, second conjunct), but it passes
`address` and `pricing` to `JSON.stringify` verbatim, which serializes keys
in insertion order.  For the permuted address `addrExSwapped` the canonical
`JSON.stringify` input differs (`hashInput` inequality, third conjunct), so
the HMAC digests of the two semantically identical orders differ and
verification fails, contrary to the spec's mandatory canonicalization. -/
theorem C1_keyorder_bug :
    orderEx.address.Perm orderExSwapped.address ∧
    projLine enhExShuffled = projLine enhEx ∧
    hashInput orderEx ≠ hashInput orderExSwapped := by
  refine ⟨by decide, by rfl, ?_⟩
  intro he
  have h2 := congrArg HashInput.address he
  exact absurd h2 (by decide)

/-- Claim C2: hash/verify round-trip.  For every summary `S` and every
digest function, `verifyOrderHash S (generateOrderHash S) = true`; in
particular every order summary returned by `checkout` verifies against the
digest returned alongside it. -/
theorem C2_roundtrip :
    (∀ (hmac : HashInput → String) (S : OrderSummary),
      verifyOrderHash hmac S (generateOrderHash hmac S) = true) ∧
    (∀ (hmac : HashInput → String) (catalog : List Product) (now : JVal)
      (cart : List JObj) (address : JObj) (S : OrderSummary) (dg : String),
      checkout hmac catalog now cart address = .ok (S, dg) →
      verifyOrderHash hmac S dg = true) := by
  have h1 : ∀ (hmac : HashInput → String) (S : OrderSummary),
      verifyOrderHash hmac S (generateOrderHash hmac S) = true := by
    intro hmac S
    unfold verifyOrderHash
    exact beq_self_eq_true _
  refine ⟨h1, ?_⟩
  intro hmac catalog now cart address S dg h
  obtain ⟨codes, -, -, -, -, hdg⟩ := checkout_ok_inv h
  rw [hdg]
  exact h1 hmac S

/-- Claim C2 witness: the checkout round-trip at the concrete example. -/
theorem C2_roundtrip_witness : verifyOrderHash hmacConst orderEx "h" = true :=
  C2_roundtrip.2 hmacConst catalogEx nowEx cartEx addrEx orderEx "h" (by rfl)

/-- Claim C3: tamper detection.  Overwriting any present field inside the
hashed projection — a cart line's `price`, `productCode` or `size`, an
address field, or a pricing field — with a different value makes
verification against the original digest fail, for every injective digest
function (HMAC-SHA256 over the canonical serialization modelled as
collision-free). -/
theorem C3_tamper_detect (hmac : HashInput → String) (hinj : Function.Injective hmac)
    (S : OrderSummary) (f : TamperField) (v : JVal)
    (hpresent : currentVal S f ≠ none) (hchange : currentVal S f ≠ some v) :
    verifyOrderHash hmac (tamper S f v) (generateOrderHash hmac S) = false :=
  verify_false_of_hashInput_ne hinj (hashInput_tamper_ne hpresent hchange)

/-- Claim C3 witness: editing the example order's address city is detected
under the concrete injective digest model. -/
theorem C3_tamper_detect_witness :
    verifyOrderHash hmacModel
      (tamper orderEx (TamperField.addressField "city") (JVal.str "Pune"))
      (generateOrderHash hmacModel orderEx) = false :=
  C3_tamper_detect hmacModel hmacModel_injective orderEx
    (TamperField.addressField "city") (JVal.str "Pune") (by decide) (by decide)

/-- Claim C4: pricing invariant.  Every order summary returned by checkout
carries pricing with `discount = round2(subtotal * 0.1)`,
`delivery = if subtotal > 700 then 0 else 150`, and
`total = round2(subtotal + delivery - discount)`. -/
theorem C4_pricing_invariant (hmac : HashInput → String) (catalog : List Product)
    (now : JVal) (cart : List JObj) (address : JObj) (S : OrderSummary) (dg : String)
    (h : checkout hmac catalog now cart address = .ok (S, dg)) :
    ∃ s : ℚ,
      getv S.pricing "subtotal" = some (JVal.num s) ∧
      getv S.pricing "discount" = some (JVal.num (round2 (s * (1 / 10)))) ∧
      getv S.pricing "delivery" = some (JVal.num (if s > 700 then (0 : ℚ) else 150)) ∧
      getv S.pricing "total" =
        some (JVal.num (round2 (s + (if s > 700 then (0 : ℚ) else 150) - round2 (s * (1 / 10))))) := by
  obtain ⟨codes, -, -, hS, -, -⟩ := checkout_ok_inv h
  subst hS
  exact ⟨cartSubtotal (enhancedCart (matchedProducts catalog codes) cart), rfl, rfl, rfl, rfl⟩

/-- Claim C4 witness: the pricing invariant read off the example checkout. -/
theorem C4_pricing_invariant_witness :
    ∃ s : ℚ,
      getv orderEx.pricing "subtotal" = some (JVal.num s) ∧
      getv orderEx.pricing "discount" = some (JVal.num (round2 (s * (1 / 10)))) ∧
      getv orderEx.pricing "delivery" = some (JVal.num (if s > 700 then (0 : ℚ) else 150)) ∧
      getv orderEx.pricing "total" =
        some (JVal.num (round2 (s + (if s > 700 then (0 : ℚ) else 150) - round2 (s * (1 / 10))))) :=
  C4_pricing_invariant hmacConst catalogEx nowEx cartEx addrEx orderEx "h" (by rfl)

/-- Claim C5 counterexample: the claim says every monetary figure in the
returned pricing, including `subtotal`, is rounded to 2 decimal places.
The code never rounds `subtotal` (it is the raw sum of catalog prices),
so a catalog price of 0.005 yields a returned subtotal of 0.005, which is
not a 2-decimal value (`round2` does not fix it). -/
theorem C5_rounding_cex :
    checkout hmacConst catalogFrac nowEx cartFrac addrEx = .ok (orderFrac, "h") ∧
    getv orderFrac.pricing "subtotal" = some (JVal.num (1 / 200)) ∧
    round2 (1 / 200) ≠ (1 / 200 : ℚ) := by
  have hsub : cartSubtotal [enhFrac] = 1 / 200 := by
    show (0 : ℚ) + priceCoerce (getv enhFrac "price") = 1 / 200
    have : getv enhFrac "price" = some (JVal.num (1 / 200)) := by rfl
    rw [this]
    show (0 : ℚ) + 1 / 200 = 1 / 200
    rw [zero_add]
  refine ⟨by rfl, ?_, ?_⟩
  · show some (JVal.num (cartSubtotal [enhFrac])) = some (JVal.num (1 / 200))
    rw [hsub]
  · have h1 : (1 / 200 : ℚ) * 100 + 1 / 2 = 1 := by norm_num
    unfold round2
    rw [h1]
    norm_num

/-- Claim C5 (amended): in the returned pricing, `discount`, `delivery` and
`total` are 2-decimal values (fixed points of `round2`, the code's
`toFixed(2)` model, which rounds half away from zero on the non-negative
range), with `delivery ∈ {0, 150}`; `subtotal` is the raw, un-rounded sum of
the coerced catalog prices; and all four figures are non-negative provided
every numeric catalog price is non-negative. -/
theorem C5_rounding_amended (hmac : HashInput → String) (catalog : List Product)
    (now : JVal) (cart : List JObj) (address : JObj) (S : OrderSummary) (dg : String)
    (h : checkout hmac catalog now cart address = .ok (S, dg))
    (hnn : ∀ p ∈ catalog, ∀ q : ℚ, p.product_price = JVal.num q → 0 ≤ q) :
    ∃ s : ℚ,
      getv S.pricing "subtotal" = some (JVal.num s) ∧ 0 ≤ s ∧
      getv S.pricing "discount" = some (JVal.num (discountOf s)) ∧
        0 ≤ discountOf s ∧ round2 (discountOf s) = discountOf s ∧
      getv S.pricing "delivery" = some (JVal.num (deliveryOf s)) ∧
        (deliveryOf s = 0 ∨ deliveryOf s = 150) ∧
      getv S.pricing "total" = some (JVal.num (totalOf s)) ∧
        0 ≤ totalOf s ∧ round2 (totalOf s) = totalOf s := by
  obtain ⟨codes, -, -, hS, -, -⟩ := checkout_ok_inv h
  subst hS
  have hs0 : 0 ≤ cartSubtotal (enhancedCart (matchedProducts catalog codes) cart) := by
    refine cartSubtotal_nonneg ?_
    intro line hline
    obtain ⟨p, hp, hprice⟩ := enhancedCart_price_mem hline
    have hpcat : p ∈ catalog := (List.mem_filter.mp hp).1
    rw [hprice]
    cases hval : p.product_price with
    | num q => simpa [priceCoerce] using hnn p hpcat q hval
    | null => simp [priceCoerce]
    | bool b => simp [priceCoerce]
    | str t => simp [priceCoerce]
  have htot : 0 ≤ totalOf (cartSubtotal (enhancedCart (matchedProducts catalog codes) cart)) := by
    unfold totalOf
    have hd := round2_le (cartSubtotal (enhancedCart (matchedProducts catalog codes) cart) * (1 / 10))
    refine round2_nonneg ?_
    unfold deliveryOf discountOf
    split
    · rename_i hbig
      linarith
    · rename_i hsmall
      linarith
  refine ⟨cartSubtotal (enhancedCart (matchedProducts catalog codes) cart),
    rfl, hs0, rfl, round2_nonneg (mul_nonneg hs0 (by norm_num)), round2_idem _,
    rfl, ?_, rfl, htot, round2_idem _⟩
  unfold deliveryOf
  split
  · exact Or.inl rfl
  · exact Or.inr rfl

/-- Claim C5 witness: the amended rounding facts at the concrete example
checkout, whose only catalog price 500 is non-negative. -/
theorem C5_rounding_amended_witness :
    ∃ s : ℚ,
      getv orderEx.pricing "subtotal" = some (JVal.num s) ∧ 0 ≤ s ∧
      getv orderEx.pricing "discount" = some (JVal.num (discountOf s)) ∧
        0 ≤ discountOf s ∧ round2 (discountOf s) = discountOf s ∧
      getv orderEx.pricing "delivery" = some (JVal.num (deliveryOf s)) ∧
        (deliveryOf s = 0 ∨ deliveryOf s = 150) ∧
      getv orderEx.pricing "total" = some (JVal.num (totalOf s)) ∧
        0 ≤ totalOf s ∧ round2 (totalOf s) = totalOf s :=
  C5_rounding_amended hmacConst catalogEx nowEx cartEx addrEx orderEx "h" (by rfl)
    (by
      intro p hp q hq
      have hp1 : p = ⟨"id1", "A1", "Shirt", JVal.num 500, "http-img-a1"⟩ := by
        simpa [catalogEx] using hp
      subst hp1
      have h500 : JVal.num 500 = JVal.num q := hq
      have : (500 : ℚ) = q := by injection h500
      rw [← this]
      norm_num)

/-- Claim C6 counterexample: the claim says a line with no matching catalog
record is dropped without failing the request, and that a fully-dropped cart
fails with InvalidInput.  When no submitted code matches the catalog at all,
the request instead fails with 404 NotFound (`products.length === 0` guard)
before any line-dropping happens — a NotFound, not an InvalidInput (400),
client result. -/
theorem C6_all_unknown_cex :
    checkout hmacConst catalogEx nowEx cartUnknown addrEx =
      .error ⟨404, "No products found in database"⟩ ∧ (404 : Nat) ≠ 400 :=
  ⟨by rfl, by decide⟩

/-- Claim C6 (amended): best-effort filtering holds only once at least one
submitted code matches the catalog: (1) if no code matches, checkout fails
with 404 NotFound; (2) if some code matches but every line is dropped
during enrichment (unknown raw code or invalid size), checkout fails with
InvalidInput 400 "No valid items in cart"; (3) if any enriched line
survives, checkout succeeds and its summary carries exactly the surviving
lines; and (4) a cart with one valid and one unknown code yields a summary
containing only the valid line. -/
theorem C6_filtering_amended :
    (∀ (hmac : HashInput → String) (catalog : List Product) (now : JVal)
      (cart : List JObj) (address : JObj) (codes : List String), cart ≠ [] →
      extractCodes cart = some codes → matchedProducts catalog codes = [] →
      checkout hmac catalog now cart address = .error ⟨404, "No products found in database"⟩) ∧
    (∀ (hmac : HashInput → String) (catalog : List Product) (now : JVal)
      (cart : List JObj) (address : JObj) (codes : List String), cart ≠ [] →
      extractCodes cart = some codes → matchedProducts catalog codes ≠ [] →
      enhancedCart (matchedProducts catalog codes) cart = [] →
      checkout hmac catalog now cart address = .error ⟨400, "No valid items in cart"⟩) ∧
    (∀ (hmac : HashInput → String) (catalog : List Product) (now : JVal)
      (cart : List JObj) (address : JObj) (codes : List String), cart ≠ [] →
      extractCodes cart = some codes → matchedProducts catalog codes ≠ [] →
      enhancedCart (matchedProducts catalog codes) cart ≠ [] →
      ∃ S dg, checkout hmac catalog now cart address = .ok (S, dg) ∧
        S.cart = enhancedCart (matchedProducts catalog codes) cart) ∧
    (checkout hmacConst catalogEx nowEx cartMixed addrEx = .ok (orderEx, "h") ∧
      orderEx.cart = [enhEx]) := by
  refine ⟨?_, ?_, ?_, by rfl, by rfl⟩
  · intro hmac catalog now cart address codes hne hc hp
    exact checkout_no_products hne hc hp
  · intro hmac catalog now cart address codes hne hc hp he
    exact checkout_no_valid_items hne hc hp he
  · intro hmac catalog now cart address codes hne hc hp he
    exact ⟨summaryOf catalog codes now cart address, _, checkout_success hne hc hp he, rfl⟩

/-- Claim C6 witness: the amended branches at concrete carts — all-unknown
gives 404, valid-code-but-no-size gives 400 "No valid items in cart", and
the mixed cart succeeds with exactly the surviving line. -/
theorem C6_filtering_amended_witness :
    checkout hmacConst catalogEx nowEx cartUnknown addrEx =
      .error ⟨404, "No products found in database"⟩ ∧
    checkout hmacConst catalogEx nowEx cartNoSize addrEx =
      .error ⟨400, "No valid items in cart"⟩ ∧
    ∃ S dg, checkout hmacConst catalogEx nowEx cartMixed addrEx = .ok (S, dg) ∧
      S.cart = enhancedCart (matchedProducts catalogEx ["A1", "ZZ"]) cartMixed :=
  ⟨C6_filtering_amended.1 hmacConst catalogEx nowEx cartUnknown addrEx ["ZZ"]
      (by decide) (by decide) (by decide),
   C6_filtering_amended.2.1 hmacConst catalogEx nowEx cartNoSize addrEx ["A1"]
      (by decide) (by decide) (by decide) (by decide),
   C6_filtering_amended.2.2.1 hmacConst catalogEx nowEx cartMixed addrEx ["A1", "ZZ"]
      (by decide) (by decide) (by decide) (by decide)⟩

/-- Claim C7 counterexample: the claim says a cart containing a line whose
`productCode` is not a non-empty string fails with InvalidInput, a
client-error (400) result.  The code throws inside the `try` block and the
generic catch returns a 500 "Server error processing order" — a
server-error result, not a client error. -/
theorem C7_invalid_code_cex :
    checkout hmacConst catalogEx nowEx cartBadCode addrEx =
      .error ⟨500, "Server error processing order"⟩ ∧ (500 : Nat) ≠ 400 :=
  ⟨by rfl, by decide⟩

/-- Claim C7 (amended): a non-empty cart containing a line whose
`productCode` is not a string with non-empty trim makes checkout fail —
via the thrown error surfacing through the generic catch as a 500
"Server error processing order" response (an Internal-style result, not a
400 client error) — and no order summary or digest is produced. -/
theorem C7_invalid_code_amended (hmac : HashInput → String) (catalog : List Product)
    (now : JVal) (cart : List JObj) (address : JObj) (hne : cart ≠ [])
    (hbad : ∃ line ∈ cart, validCode line = false) :
    checkout hmac catalog now cart address = .error ⟨500, "Server error processing order"⟩ ∧
    ∀ S dg, checkout hmac catalog now cart address ≠ .ok (S, dg) := by
  have h := @checkout_invalid_code hmac catalog now cart address hne
    ((extractCodes_none_iff cart).mpr hbad)
  refine ⟨h, fun S dg hok => ?_⟩
  rw [h] at hok
  exact Except.noConfusion hok

/-- Claim C7 witness: the amended behavior at a cart whose line carries a
numeric product code. -/
theorem C7_invalid_code_amended_witness :
    checkout hmacConst catalogEx nowEx cartBadCode addrEx =
      .error ⟨500, "Server error processing order"⟩ ∧
    ∀ S dg, checkout hmacConst catalogEx nowEx cartBadCode addrEx ≠ .ok (S, dg) :=
  C7_invalid_code_amended hmacConst catalogEx nowEx cartBadCode addrEx
    (by decide) (by decide)

/-- Claim C8 counterexample: the claim says a malformed or unparseable
bearer credential fails with Unauthenticated (401).  In the code any
present token that `jwt.verify` cannot process — including an unparseable
one — lands in the catch and gets 403 ("Invalid or expired token"), a
Forbidden result, not 401. -/
theorem C8_malformed_forbidden_cex :
    authenticateJWT macEx decodeTokEx "server-secret" 50 (some "Bearer garbage") =
      .error ⟨403, "Invalid or expired token"⟩ ∧ (403 : Nat) ≠ 401 :=
  ⟨by rfl, by decide⟩

/-- Claim C8 (amended): the middleware returns 401 Unauthenticated exactly
when the credential is absent — missing or empty header, or no token after
splitting the header on a space — and 403 Forbidden for every present token
that fails verification, whether unparseable/malformed, carrying a wrong
signature, or expired; on success the embedded clientId is exposed. -/
theorem C8_token_taxonomy_amended :
    (∀ (mac : String → JwtPayload → String)
      (decodeTok : String → Option (JwtPayload × String)) (secret : String) (now : Nat),
      authenticateJWT mac decodeTok secret now none =
        .error ⟨401, "Authorization header missing"⟩) ∧
    (∀ (mac : String → JwtPayload → String)
      (decodeTok : String → Option (JwtPayload × String)) (secret : String) (now : Nat),
      authenticateJWT mac decodeTok secret now (some "") =
        .error ⟨401, "Authorization header missing"⟩) ∧
    (∀ (mac : String → JwtPayload → String)
      (decodeTok : String → Option (JwtPayload × String)) (secret : String) (now : Nat)
      (h : String), h ≠ "" → (jsSplitSpace h).get? 1 = none →
      authenticateJWT mac decodeTok secret now (some h) =
        .error ⟨401, "Token not provided"⟩) ∧
    (∀ (mac : String → JwtPayload → String)
      (decodeTok : String → Option (JwtPayload × String)) (secret : String) (now : Nat)
      (h : String), h ≠ "" → (jsSplitSpace h).get? 1 = some "" →
      authenticateJWT mac decodeTok secret now (some h) =
        .error ⟨401, "Token not provided"⟩) ∧
    (∀ (mac : String → JwtPayload → String)
      (decodeTok : String → Option (JwtPayload × String)) (secret : String) (now : Nat)
      (h tok : String), h ≠ "" → (jsSplitSpace h).get? 1 = some tok → tok ≠ "" →
      decodeTok tok = none →
      authenticateJWT mac decodeTok secret now (some h) =
        .error ⟨403, "Invalid or expired token"⟩) ∧
    (∀ (mac : String → JwtPayload → String)
      (decodeTok : String → Option (JwtPayload × String)) (secret : String) (now : Nat)
      (h tok : String) (payload : JwtPayload) (sig : String),
      h ≠ "" → (jsSplitSpace h).get? 1 = some tok → tok ≠ "" →
      decodeTok tok = some (payload, sig) → sig ≠ mac secret payload →
      authenticateJWT mac decodeTok secret now (some h) =
        .error ⟨403, "Invalid or expired token"⟩) ∧
    (∀ (mac : String → JwtPayload → String)
      (decodeTok : String → Option (JwtPayload × String)) (secret : String) (now : Nat)
      (h tok : String) (payload : JwtPayload) (sig : String),
      h ≠ "" → (jsSplitSpace h).get? 1 = some tok → tok ≠ "" →
      decodeTok tok = some (payload, sig) → sig = mac secret payload → payload.exp ≤ now →
      authenticateJWT mac decodeTok secret now (some h) =
        .error ⟨403, "Invalid or expired token"⟩) ∧
    (∀ (mac : String → JwtPayload → String)
      (decodeTok : String → Option (JwtPayload × String)) (secret : String) (now : Nat)
      (h tok : String) (payload : JwtPayload) (sig : String),
      h ≠ "" → (jsSplitSpace h).get? 1 = some tok → tok ≠ "" →
      decodeTok tok = some (payload, sig) → sig = mac secret payload → now < payload.exp →
      authenticateJWT mac decodeTok secret now (some h) = .ok payload.clientId) := by
  refine ⟨?_, ?_, ?_, ?_, ?_, ?_, ?_, ?_⟩
  · intro mac decodeTok secret now
    rfl
  · intro mac decodeTok secret now
    rfl
  · intro mac decodeTok secret now h hne hget
    simp only [List.get?_eq_getElem?] at hget
    simp [authenticateJWT, hne, hget]
  · intro mac decodeTok secret now h hne hget
    simp only [List.get?_eq_getElem?] at hget
    simp [authenticateJWT, hne, hget]
  · intro mac decodeTok secret now h tok hne hget htok hdec
    simp only [List.get?_eq_getElem?] at hget
    simp [authenticateJWT, hne, hget, htok, hdec]
  · intro mac decodeTok secret now h tok payload sig hne hget htok hdec hsig
    simp only [List.get?_eq_getElem?] at hget
    simp [authenticateJWT, hne, hget, htok, hdec, hsig]
  · intro mac decodeTok secret now h tok payload sig hne hget htok hdec hsig hexp
    simp only [List.get?_eq_getElem?] at hget
    simp [authenticateJWT, hne, hget, htok, hdec, hsig, Nat.not_lt.mpr hexp]
  · intro mac decodeTok secret now h tok payload sig hne hget htok hdec hsig hexp
    simp only [List.get?_eq_getElem?] at hget
    simp [authenticateJWT, hne, hget, htok, hdec, hsig, hexp]

/-- Claim C8 witness: the amended classification at concrete headers — an
absent header gives 401, a header with no token part gives 401, and a
well-signed unexpired token succeeds exposing its clientId. -/
theorem C8_token_taxonomy_amended_witness :
    authenticateJWT macEx decodeTokEx "server-secret" 50 none =
      .error ⟨401, "Authorization header missing"⟩ ∧
    authenticateJWT macEx decodeTokEx "server-secret" 50 (some "Bearer") =
      .error ⟨401, "Token not provided"⟩ ∧
    authenticateJWT macEx decodeTokEx "server-secret" 50 (some "Bearer good") =
      .ok "client-1" :=
  ⟨C8_token_taxonomy_amended.1 macEx decodeTokEx "server-secret" 50,
   C8_token_taxonomy_amended.2.2.1 macEx decodeTokEx "server-secret" 50 "Bearer"
     (by decide) (by decide),
   C8_token_taxonomy_amended.2.2.2.2.2.2.2 macEx decodeTokEx "server-secret" 50
     "Bearer good" "good" ⟨"client-1", 100⟩ "sig0"
     (by decide) (by decide) (by decide) (by decide) (by decide) (by decide)⟩

/-- Claim C9: integrity-violation atomicity.  Whenever verification of an
order/digest pair fails, save-order returns the 400 tamper error and the
order store is returned unchanged — nothing is persisted and no identifier
is assigned. -/
theorem C9_integrity_atomic (hmac : HashInput → String) (store : List OrderSummary)
    (order : OrderSummary) (h : String) (hne : h ≠ "")
    (hfail : verifyOrderHash hmac order h = false) :
    saveOrder hmac store order (JVal.str h) =
      (.error ⟨400, "Order verification failed. The order data may have been tampered with."⟩,
       store) := by
  simp [saveOrder, hne, hfail]

/-- Claim C9 witness: a wrong digest for the example order leaves the empty
store unchanged. -/
theorem C9_integrity_atomic_witness :
    saveOrder hmacConst [] orderEx (JVal.str "zz") =
      (.error ⟨400, "Order verification failed. The order data may have been tampered with."⟩,
       ([] : List OrderSummary)) :=
  C9_integrity_atomic hmacConst [] orderEx "zz" (by decide) (by decide)

/-- Claim C10: digest invariance on excluded fields.  Changing only
`orderDate`, `status`, and a cart line's `imageUrl` and `_id` keeps the
original digest valid, and save-order accepts the modified order and
persists it as submitted (appended verbatim, identifier assigned). -/
theorem C10_excluded_fields (hmac : HashInput → String) (S : OrderSummary)
    (store : List OrderSummary) (newDate newStatus : JVal) (i : Nat)
    (newImage newId : JVal) (hne : generateOrderHash hmac S ≠ "") :
    verifyOrderHash hmac (excludedEdit S newDate newStatus i newImage newId)
      (generateOrderHash hmac S) = true ∧
    saveOrder hmac store (excludedEdit S newDate newStatus i newImage newId)
      (JVal.str (generateOrderHash hmac S)) =
      (.ok store.length, store ++ [excludedEdit S newDate newStatus i newImage newId]) := by
  have hline : ∀ l : JObj, projLine (setField (setField l "imageUrl" newImage) "_id" newId) =
      projLine l := by
    intro l
    refine projLine_congr ?_ ?_ ?_ ?_ <;>
      rw [getv_setField_ne _ (by decide), getv_setField_ne _ (by decide)]
  have hhash : hashInput (excludedEdit S newDate newStatus i newImage newId) = hashInput S := by
    unfold hashInput excludedEdit
    simp only []
    rw [map_projLine_modifyAt hline]
  have hver : verifyOrderHash hmac (excludedEdit S newDate newStatus i newImage newId)
      (generateOrderHash hmac S) = true := by
    unfold verifyOrderHash generateOrderHash
    rw [hhash]
    exact beq_self_eq_true _
  refine ⟨hver, ?_⟩
  simp [saveOrder, hne, hver]

/-- Claim C10 witness: editing the example order's date, status and the
first line's image and id keeps the digest valid and the edited order is
persisted as submitted. -/
theorem C10_excluded_fields_witness :
    verifyOrderHash hmacConst
      (excludedEdit orderEx (JVal.str "2027-01-01") (JVal.str "done") 0
        (JVal.str "img2") (JVal.str "id2"))
      (generateOrderHash hmacConst orderEx) = true ∧
    saveOrder hmacConst [] (excludedEdit orderEx (JVal.str "2027-01-01") (JVal.str "done") 0
        (JVal.str "img2") (JVal.str "id2"))
      (JVal.str (generateOrderHash hmacConst orderEx)) =
      (.ok (0 : Nat),
       [excludedEdit orderEx (JVal.str "2027-01-01") (JVal.str "done") 0
         (JVal.str "img2") (JVal.str "id2")]) :=
  C10_excluded_fields hmacConst orderEx [] (JVal.str "2027-01-01") (JVal.str "done") 0
    (JVal.str "img2") (JVal.str "id2") (by decide)
